import Mathlib

/-!
# go-get-ip: client-IP resolution and address-family classification

A shallow embedding of `main.go` (`getClientIP`, `getIPv4`, `getIPv6`,
`isValidIP`, `handleIPv4`, `handleIPv6`) together with executable models of
the Go standard-library functions it calls (`strings.Split`,
`strings.TrimSpace`, `net.ParseIP`, `IP.To4`, `net.SplitHostPort`).

Conventions.
* A Go `string` is a Lean `String`, read as its sequence of characters
  (`String.data`), that is, as well-formed UTF-8 text. The delimiters the
  program looks at (`,` `.` `:` `%` `[` `]`) are ASCII, so cutting at a byte
  offset in the Go code is cutting at the same character here.
* A Go function that can stop with a run-time error (an index out of range)
  returns `Option`, with `none` for the run-time error.
* `gin.Context` is the pair of what the program reads from it: the header
  lookup `c.GetHeader` (the empty string for an absent header) and
  `c.Request.RemoteAddr`.
-/

set_option maxRecDepth 100000

/-! ## Go standard library: package `bytealg` / `strings` -/

namespace strings

/-- Go `strings.IndexByte`: offset of the first occurrence of `c`, `none` for -1. -/
def IndexByte : List Char → Char → Option Nat
  | [], _ => none
  | x :: t, c => if x = c then some 0 else (IndexByte t c).map (· + 1)

/-- Go `strings.LastIndexByte`: offset of the last occurrence of `c`, `none` for -1. -/
def LastIndexByte : List Char → Char → Option Nat
  | [], _ => none
  | x :: t, c =>
    match LastIndexByte t c with
    | some i => some (i + 1)
    | none => if x = c then some 0 else none

/-- Go `strings.Index`: offset of the first occurrence of `substr` in `s`. -/
def Index : List Char → List Char → Option Nat
  | [], substr => if substr = [] then some 0 else none
  | x :: t, substr =>
    if substr.isPrefixOf (x :: t) then some 0 else (Index t substr).map (· + 1)

/-- Loop of Go `strings.Count` for a non-empty `substr`: each round finds the
next occurrence and continues behind it; a round consumes at least one
character, so `len(s)` rounds are enough. -/
def Count.loop (substr : List Char) : Nat → List Char → Nat
  | 0, _ => 0
  | fuel + 1, s =>
    match Index s substr with
    | none => 0
    | some i => Count.loop substr fuel (s.drop (i + substr.length)) + 1

/-- Go `strings.Count`: number of non-overlapping instances of `substr`. -/
def Count (s substr : List Char) : Nat :=
  if substr = [] then s.length + 1 else Count.loop substr s.length s

/-- The `for i < n` loop of Go `strings.genSplit` (with `sepSave = 0`); the
first argument is the number of rounds left, `n - i`. -/
def genSplit.loop (sep : List Char) : Nat → List Char → List (List Char)
  | 0, s => [s]
  | n + 1, s =>
    match Index s sep with
    | none => [s]
    | some m => s.take m :: genSplit.loop sep n (s.drop (m + sep.length))

/-- Go `strings.genSplit(s, sep, 0, -1)`: for the empty separator the string
is exploded into its characters (`explode`), otherwise it is cut at every
occurrence of `sep`. -/
def genSplit (s sep : List Char) : List (List Char) :=
  if sep = [] then s.map (fun c => [c])
  else
    let n := Count s sep + 1
    let n := if n > s.length + 1 then s.length + 1 else n
    genSplit.loop sep (n - 1) s

/-- Go `strings.Split(s, sep)`. -/
def Split (s sep : String) : List String :=
  (genSplit s.data sep.data).map String.mk

/-- Go `unicode.IsSpace`: the Unicode White_Space property. -/
def IsSpace (r : Char) : Bool :=
  let n := r.toNat
  if n ≤ 0xFF then
    n = 0x09 ∨ n = 0x0A ∨ n = 0x0B ∨ n = 0x0C ∨ n = 0x0D ∨ n = 0x20 ∨ n = 0x85 ∨ n = 0xA0
  else
    n = 0x1680 ∨ (0x2000 ≤ n ∧ n ≤ 0x200A) ∨ n = 0x2028 ∨ n = 0x2029 ∨ n = 0x202F
      ∨ n = 0x205F ∨ n = 0x3000

/-- Go `strings.TrimSpace`: all leading and trailing white space removed. -/
def TrimSpace (s : String) : String :=
  String.mk ((((s.data.dropWhile IsSpace).reverse).dropWhile IsSpace).reverse)

end strings

/-! ## Go standard library: package `net/netip` and `net` -/

namespace netip

/-- Result of Go `netip.ParseAddr`, reduced to what `net.ParseIP` reads from
it: the 16 bytes of `As16()` and the zone. -/
structure Addr where
  As16 : List Nat
  Zone : String
deriving DecidableEq, Repr

/-- Loop of Go `netip.parseIPv4Fields` over `s = in[off:end]`. `first` is
`i == 0`, `prevDot` is `s[i-1] == '.'`; `fields` holds `fields[0:pos]`. The
result is the four octets. -/
def parseIPv4Fields.loop :
    List Char → Bool → Bool → Nat → Nat → Nat → List Nat → Option (List Nat)
  | [], _, _, val, pos, _, fields =>
    if pos < 3 then none else some (fields ++ [val])
  | c :: rest, first, prevDot, val, pos, digLen, fields =>
    if '0' ≤ c ∧ c ≤ '9' then
      if digLen = 1 ∧ val = 0 then none
      else
        let val := val * 10 + (c.toNat - '0'.toNat)
        if val > 255 then none
        else parseIPv4Fields.loop rest false false val pos (digLen + 1) fields
    else if c = '.' then
      if first ∨ rest = [] ∨ prevDot then none
      else if pos = 3 then none
      else parseIPv4Fields.loop rest false true 0 (pos + 1) 0 (fields ++ [val])
    else none

/-- Go `netip.parseIPv4Fields`: the four decimal octets of a dotted quad,
`none` for a parse error. -/
def parseIPv4Fields (s : List Char) : Option (List Nat) :=
  parseIPv4Fields.loop s true false 0 0 0 []

/-- Go `netip.parseIPv4` followed by `As16`: the IPv4-mapped 16-byte form. -/
def parseIPv4 (s : List Char) : Option Addr :=
  match parseIPv4Fields s with
  | none => none
  | some fields => some ⟨[0, 0, 0, 0, 0, 0, 0, 0, 0, 0, 0xff, 0xff] ++ fields, ""⟩

/-- Value of a hexadecimal digit, as in the inner loop of `parseIPv6`. -/
def hexDigit (c : Char) : Option Nat :=
  if '0' ≤ c ∧ c ≤ '9' then some (c.toNat - '0'.toNat)
  else if 'a' ≤ c ∧ c ≤ 'f' then some (c.toNat - 'a'.toNat + 10)
  else if 'A' ≤ c ∧ c ≤ 'F' then some (c.toNat - 'A'.toNat + 10)
  else none

/-- Inner loop of Go `netip.parseIPv6` reading one hexadecimal group: gives
`(off, acc, s[off:])`, or `none` for a group of more than four digits or a
value above `0xffff`. `acc` is a `uint32`. -/
def parseIPv6.hex : List Char → Nat → Nat → Option (Nat × Nat × List Char)
  | [], off, acc => some (off, acc, [])
  | c :: cs, off, acc =>
    match hexDigit c with
    | none => some (off, acc, c :: cs)
    | some d =>
      let acc := ((acc * 16) % 2 ^ 32 + d) % 2 ^ 32
      if off > 3 then none
      else if acc > 0xffff then none
      else parseIPv6.hex cs (off + 1) acc

/-- The `for i < 16` loop of Go `netip.parseIPv6`. `ip` holds the bytes
written so far, `ip[0:i]`, so `i = ip.length`; every round that does not leave
the loop adds two bytes, so eight rounds reach `i = 16`. The result is the
state `(s, ip, ellipsis)` behind the loop. -/
def parseIPv6.loop :
    Nat → List Char → List Nat → Option Nat → Option (List Char × List Nat × Option Nat)
  | 0, s, ip, ellipsis => some (s, ip, ellipsis)
  | fuel + 1, s, ip, ellipsis =>
    let i := ip.length
    if ¬ i < 16 then some (s, ip, ellipsis)
    else
      match parseIPv6.hex s 0 0 with
      | none => none
      | some (off, acc, rest) =>
        if off = 0 then none
        else if rest.head? = some '.' then
          if ellipsis = none ∧ i ≠ 12 then none
          else if i + 4 > 16 then none
          else
            match parseIPv4Fields s with
            | none => none
            | some fields => some ([], ip ++ fields, ellipsis)
        else
          let ip := ip ++ [acc / 256 % 256, acc % 256]
          let i := i + 2
          match rest with
          | [] => some ([], ip, ellipsis)
          | c :: s1 =>
            if c ≠ ':' then none
            else
              match s1 with
              | [] => none
              | c1 :: s2 =>
                if c1 = ':' then
                  if ellipsis ≠ none then none
                  else
                    match s2 with
                    | [] => some ([], ip, some i)
                    | _ :: _ => parseIPv6.loop fuel s2 ip (some i)
                else parseIPv6.loop fuel s1 ip ellipsis

/-- Go `netip.parseIPv6`. -/
def parseIPv6 (input : List Char) : Option Addr :=
  let split : Option (List Char × List Char) :=
    match strings.IndexByte input '%' with
    | none => some (input, [])
    | some i => if input.drop (i + 1) = [] then none else some (input.take i, input.drop (i + 1))
  match split with
  | none => none
  | some (s, zone) =>
    let lead : Bool := 2 ≤ s.length ∧ s.head? = some ':' ∧ (s.drop 1).head? = some ':'
    let ellipsis : Option Nat := if lead then some 0 else none
    let s := if lead then s.drop 2 else s
    if lead ∧ s = [] then
      some ⟨List.replicate 16 0, String.mk zone⟩
    else
      match parseIPv6.loop 8 s [] ellipsis with
      | none => none
      | some (s, ip, ellipsis) =>
        if s ≠ [] then none
        else if ip.length < 16 then
          match ellipsis with
          | none => none
          | some e =>
            some ⟨ip.take e ++ List.replicate (16 - ip.length) 0 ++ ip.drop e, String.mk zone⟩
        else if ellipsis ≠ none then none
        else some ⟨ip, String.mk zone⟩

/-- Go `netip.ParseAddr`: the first of `.`, `:` and `%` selects the parser. -/
def ParseAddr.scan (s : List Char) : List Char → Option Addr
  | [] => none
  | c :: rest =>
    if c = '.' then parseIPv4 s
    else if c = ':' then parseIPv6 s
    else if c = '%' then none
    else ParseAddr.scan s rest

/-- Go `netip.ParseAddr`. -/
def ParseAddr (s : String) : Option Addr :=
  ParseAddr.scan s.data s.data

end netip

namespace net

/-- Go `net.IP`, a byte slice. -/
abbrev IP := List Nat

/-- Go `net.ParseIP`: the 16-byte form of the address, `none` for `nil`.
An address with a zone is rejected. -/
def ParseIP (s : String) : Option IP :=
  match netip.ParseAddr s with
  | none => none
  | some ip => if ip.Zone ≠ "" then none else some ip.As16

/-- Go `IP.To4`: the 4-byte form of an IPv4 address, `none` for `nil`. -/
def IP.To4 (ip : IP) : Option IP :=
  if ip.length = 4 then some ip
  else if ip.length = 16 ∧ (ip.take 10).all (· = 0) ∧ ip.get? 10 = some 0xff
      ∧ ip.get? 11 = some 0xff then
    some (ip.drop 12)
  else none

/-- Go `net.SplitHostPort`: `Except.ok (host, port)`, or the error text. -/
def SplitHostPort (hostport : String) : Except String (String × String) :=
  let hp := hostport.data
  match strings.LastIndexByte hp ':' with
  | none => .error "missing port in address"
  | some i =>
    let bracketed : Except String (List Char × Nat × Nat) :=
      if hp.head? = some '[' then
        match strings.IndexByte hp ']' with
        | none => .error "missing ']' in address"
        | some e =>
          if e + 1 = hp.length then .error "missing port in address"
          else if e + 1 = i then .ok ((hp.take e).drop 1, 1, e + 1)
          else if hp.get? (e + 1) = some ':' then .error "too many colons in address"
          else .error "missing port in address"
      else
        let host := hp.take i
        if (strings.IndexByte host ':').isSome then .error "too many colons in address"
        else .ok (host, 0, 0)
    match bracketed with
    | .error e => .error e
    | .ok (host, j, k) =>
      if (strings.IndexByte (hp.drop j) '[').isSome then .error "unexpected '[' in address"
      else if (strings.IndexByte (hp.drop k) ']').isSome then .error "unexpected ']' in address"
      else .ok (String.mk host, String.mk (hp.drop (i + 1)))

end net

/-! ## The program: `main.go` -/

/-- What the program reads from a `gin.Context`: `c.GetHeader(name)`, the
empty string when the header is absent, and `c.Request.RemoteAddr`. -/
structure Context where
  GetHeader : String → String
  RemoteAddr : String

/-- The request `c` without the header `name`: its lookup gives `""`. -/
def Context.delHeader (c : Context) (name : String) : Context :=
  { c with GetHeader := fun h => if h = name then "" else c.GetHeader h }

/-- The slice `headers` of `getClientIP`, in scanning order. -/
def headers : List String :=
  [ "CF-Connecting-IP",
    "X-Forwarded-For",
    "X-Real-IP",
    "X-Client-IP",
    "X-Forwarded",
    "X-Cluster-Client-IP",
    "Forwarded-For",
    "Forwarded" ]

/-- Function `isValidIP` of `main.go`: `net.ParseIP(ip) != nil`. -/
def isValidIP (ip : String) : Bool :=
  (net.ParseIP ip).isSome

/-- Lines 36-39 of `getClientIP`: the value tested for `header`, given its
non-empty raw value `ip`. For `X-Forwarded-For` it is
`strings.TrimSpace(ips[0])` with `ips := strings.Split(ip, ",")`, and `none`
if `ips[0]` is out of range; for every other header it is `ip` itself. -/
def headerValue (header ip : String) : Option String :=
  if header = "X-Forwarded-For" then
    match (strings.Split ip ",")[0]? with
    | none => none
    | some first => some (strings.TrimSpace first)
  else some ip

/-- The `for _, header := range headers` loop of `getClientIP` over the
remaining headers: `some (some ip)` when the loop returns `ip`, `some none`
when it ends without returning, `none` for a run-time error. -/
def getClientIP.loop (c : Context) : List String → Option (Option String)
  | [] => some none
  | header :: rest =>
    let ip := c.GetHeader header
    if ip ≠ "" then
      match headerValue header ip with
      | none => none
      | some ip => if isValidIP ip then some (some ip) else getClientIP.loop c rest
    else getClientIP.loop c rest

/-- Lines 46-50 of `getClientIP`: the host of `net.SplitHostPort(RemoteAddr)`,
or `RemoteAddr` itself when splitting fails. -/
def peerFallback (remoteAddr : String) : String :=
  match net.SplitHostPort remoteAddr with
  | .error _ => remoteAddr
  | .ok (ip, _) => ip

/-- Function `getClientIP` of `main.go`. -/
def getClientIP (c : Context) : Option String :=
  match getClientIP.loop c headers with
  | none => none
  | some (some ip) => some ip
  | some none => some (peerFallback c.RemoteAddr)

/-- Function `getIPv4` of `main.go`. -/
def getIPv4 (c : Context) : Option String :=
  match getClientIP c with
  | none => none
  | some ip =>
    match net.ParseIP ip with
    | some parsedIP => if (net.IP.To4 parsedIP).isSome then some ip else some ""
    | none => some ""

/-- Function `getIPv6` of `main.go`. -/
def getIPv6 (c : Context) : Option String :=
  match getClientIP c with
  | none => none
  | some ip =>
    match net.ParseIP ip with
    | some parsedIP => if (net.IP.To4 parsedIP).isNone then some ip else some ""
    | none => some ""

/-- What `c.JSON(status, obj)` sends: the status code and the members of the
JSON object, in order. -/
structure Response where
  status : Nat
  body : List (String × String)
deriving DecidableEq, Repr

/-- Go `http.StatusOK`. -/
def StatusOK : Nat := 200

/-- Go `http.StatusNotFound`. -/
def StatusNotFound : Nat := 404

/-- Function `handleIPv4` of `main.go`. -/
def handleIPv4 (c : Context) : Option Response :=
  match getIPv4 c with
  | none => none
  | some ip =>
    if ip = "" then some ⟨StatusNotFound, [("error", "No IPv4 address found")]⟩
    else some ⟨StatusOK, [("ip", ip)]⟩

/-- Function `handleIPv6` of `main.go`. -/
def handleIPv6 (c : Context) : Option Response :=
  match getIPv6 c with
  | none => none
  | some ip =>
    if ip = "" then some ⟨StatusNotFound, [("error", "No IPv6 address found")]⟩
    else some ⟨StatusOK, [("ip", ip)]⟩

/-- A request with the given `(name, value)` headers and peer address; a
name missing from the list is an absent header. -/
def mkContext (hs : List (String × String)) (remoteAddr : String) : Context :=
  { GetHeader := fun h => ((hs.find? (fun p => p.1 = h)).map (·.2)).getD ""
    RemoteAddr := remoteAddr }

/-- Header `h` is not usable in request `c`: it is absent or empty, or the
value tested for it does not parse as an IP address. -/
def notUsable (c : Context) (h : String) : Prop :=
  c.GetHeader h = "" ∨ ∃ v, headerValue h (c.GetHeader h) = some v ∧ isValidIP v = false

/-! ## Auxiliary facts -/

theorem isValidIP_empty : isValidIP "" = false := by decide

theorem genSplit_loop_ne_nil (sep : List Char) (n : Nat) (s : List Char) :
    strings.genSplit.loop sep n s ≠ [] := by
  cases n with
  | zero => simp [strings.genSplit.loop]
  | succ n =>
    unfold strings.genSplit.loop
    cases strings.Index s sep <;> simp

theorem Split_comma_head (s : String) : ∃ first, (strings.Split s ",")[0]? = some first := by
  have hsep : (",".data = []) = False := by decide
  have h : strings.genSplit s.data ",".data ≠ [] := by
    unfold strings.genSplit
    rw [if_neg (by rw [hsep]; exact not_false)]
    exact genSplit_loop_ne_nil _ _ _
  unfold strings.Split
  cases hg : strings.genSplit s.data ",".data with
  | nil => exact absurd hg h
  | cons a l => exact ⟨String.mk a, by simp⟩

theorem Index_byte_none (c : Char) :
    ∀ s : List Char, strings.Index s [c] = none → s.takeWhile (· ≠ c) = s := by
  intro s
  induction s with
  | nil => intro _; rfl
  | cons x t ih =>
    intro h
    rw [strings.Index] at h
    by_cases hx : c = x
    · simp [List.isPrefixOf, hx] at h
    · have hx2 : x ≠ c := fun e => hx e.symm
      simp [List.isPrefixOf, hx] at h
      rw [List.takeWhile_cons_of_pos (by simpa using hx2), ih h]

theorem Index_byte_some (c : Char) :
    ∀ (s : List Char) (m : Nat), strings.Index s [c] = some m →
      s.take m = s.takeWhile (· ≠ c) := by
  intro s
  induction s with
  | nil => intro m _; simp
  | cons x t ih =>
    intro m h
    rw [strings.Index] at h
    by_cases hx : c = x
    · simp [List.isPrefixOf, hx] at h
      simp [List.takeWhile, ← h, hx]
    · have hx2 : x ≠ c := fun e => hx e.symm
      simp [List.isPrefixOf, hx] at h
      obtain ⟨j, hj, rfl⟩ := h
      rw [List.takeWhile_cons_of_pos (by simpa using hx2), List.take_succ_cons, ih j hj]

theorem genSplit_byte_head (c : Char) (s : List Char) :
    (strings.genSplit s [c]).head? = some (s.takeWhile (· ≠ c)) := by
  unfold strings.genSplit
  rw [if_neg (by simp)]
  dsimp only
  cases hI : strings.Index s [c] with
  | none =>
    rw [Index_byte_none c s hI]
    generalize (if strings.Count s [c] + 1 > s.length + 1 then s.length + 1
      else strings.Count s [c] + 1) - 1 = n
    cases n with
    | zero => rfl
    | succ n => rw [strings.genSplit.loop, hI]; rfl
  | some m =>
    rw [← Index_byte_some c s m hI]
    cases s with
    | nil => simp [strings.Index] at hI
    | cons x t =>
      have hc : ∃ k, strings.Count (x :: t) [c] = k + 1 := by
        unfold strings.Count
        rw [if_neg (by simp), List.length_cons, strings.Count.loop, hI]
        exact ⟨_, rfl⟩
      obtain ⟨k, hk⟩ := hc
      rw [hk]
      have hn : ∃ n, (if k + 1 + 1 > (x :: t).length + 1 then (x :: t).length + 1
          else k + 1 + 1) - 1 = n + 1 := by
        split
        · exact ⟨t.length, by simp⟩
        · exact ⟨k, by simp⟩
      obtain ⟨n, hn⟩ := hn
      rw [hn, strings.genSplit.loop, hI]
      rfl

/-- Entry 0 of `strings.Split(s, ",")` is the text of `s` before its first
comma (all of `s` when it has none). -/
theorem Split_comma_first (s : String) :
    (strings.Split s ",")[0]? = some (String.mk (s.data.takeWhile (· ≠ ','))) := by
  have h := genSplit_byte_head ',' s.data
  unfold strings.Split
  have hd : ",".data = [','] := rfl
  rw [hd]
  cases hg : strings.genSplit s.data [','] with
  | nil => rw [hg] at h; cases h
  | cons a l =>
    rw [hg] at h
    simp only [List.head?_cons, Option.some.injEq] at h
    simp [h]

theorem headerValue_total (header ip : String) : ∃ v, headerValue header ip = some v := by
  unfold headerValue
  split
  · obtain ⟨first, hf⟩ := Split_comma_head ip
    rw [hf]; exact ⟨_, rfl⟩
  · exact ⟨_, rfl⟩

theorem headerValue_of_ne {header : String} (h : header ≠ "X-Forwarded-For") (ip : String) :
    headerValue header ip = some ip := by
  unfold headerValue; rw [if_neg h]

theorem headerValue_xff (ip : String) :
    headerValue "X-Forwarded-For" ip
      = ((strings.Split ip ",")[0]?).map strings.TrimSpace := by
  unfold headerValue
  rw [if_pos rfl]
  cases (strings.Split ip ",")[0]? <;> rfl

theorem headerValue_empty {header v : String} (h : headerValue header "" = some v) :
    isValidIP v = false := by
  by_cases hx : header = "X-Forwarded-For"
  · subst hx
    have : headerValue "X-Forwarded-For" "" = some "" := by decide
    rw [this] at h
    cases h; exact isValidIP_empty
  · rw [headerValue_of_ne hx] at h
    cases h; exact isValidIP_empty

theorem loop_skip {c : Context} {h : String} (hn : notUsable c h) (rest : List String) :
    getClientIP.loop c (h :: rest) = getClientIP.loop c rest := by
  rw [getClientIP.loop]
  rcases hn with he | ⟨v, hv, hi⟩
  · simp [he]
  · by_cases he : c.GetHeader h = ""
    · simp [he]
    · simp [he, hv, hi]

theorem loop_hit {c : Context} {h v : String}
    (hv : headerValue h (c.GetHeader h) = some v) (hi : isValidIP v = true)
    (rest : List String) :
    getClientIP.loop c (h :: rest) = some (some v) := by
  have he : c.GetHeader h ≠ "" := by
    intro he
    rw [he] at hv
    rw [headerValue_empty hv] at hi
    exact Bool.noConfusion hi
  rw [getClientIP.loop]
  simp [he, hv, hi]

theorem loop_first_match (c : Context) (pre : List String) (H v : String) (post : List String)
    (hpre : ∀ h ∈ pre, notUsable c h)
    (hv : headerValue H (c.GetHeader H) = some v) (hi : isValidIP v = true) :
    getClientIP.loop c (pre ++ H :: post) = some (some v) := by
  induction pre with
  | nil => exact loop_hit hv hi post
  | cons a pre ih =>
    rw [List.cons_append, loop_skip (hpre a (List.mem_cons_self _ _))]
    exact ih (fun h hh => hpre h (List.mem_cons_of_mem _ hh))

theorem loop_none_usable (c : Context) (hs : List String) (hall : ∀ h ∈ hs, notUsable c h) :
    getClientIP.loop c hs = some none := by
  induction hs with
  | nil => rfl
  | cons a hs ih =>
    rw [loop_skip (hall a (List.mem_cons_self _ _))]
    exact ih (fun h hh => hall h (List.mem_cons_of_mem _ hh))

theorem loop_total (c : Context) (hs : List String) :
    ∃ r, getClientIP.loop c hs = some r := by
  induction hs with
  | nil => exact ⟨none, rfl⟩
  | cons a hs ih =>
    by_cases hn : notUsable c a
    · rw [loop_skip hn]; exact ih
    · obtain ⟨v, hv⟩ := headerValue_total a (c.GetHeader a)
      have hi : isValidIP v = true := by
        cases hb : isValidIP v
        · exact absurd (Or.inr ⟨v, hv, hb⟩) hn
        · rfl
      exact ⟨some v, loop_hit hv hi hs⟩

/-- A value returned by the header loop parses as an IP address. -/
theorem loop_valid (c : Context) (hs : List String) (v : String)
    (h : getClientIP.loop c hs = some (some v)) : isValidIP v = true := by
  induction hs with
  | nil => cases h
  | cons a hs ih =>
    rw [getClientIP.loop] at h
    by_cases he : c.GetHeader a = ""
    · simp [he] at h; exact ih h
    · simp only [ne_eq, he, not_false_eq_true, if_true] at h
      cases hv : headerValue a (c.GetHeader a) with
      | none => rw [hv] at h; cases h
      | some w =>
        rw [hv] at h
        cases hb : isValidIP w
        · simp [hb] at h; exact ih h
        · simp [hb] at h; rw [← h]; exact hb

theorem notUsable_of_invalid {c : Context} {h w : String}
    (hn : notUsable c h) (hw : headerValue h (c.GetHeader h) = some w) :
    isValidIP w = false := by
  rcases hn with he | ⟨v, hv, hi⟩
  · rw [he] at hw; exact headerValue_empty hw
  · rw [hv] at hw; cases hw; exact hi

theorem mkContext_GetHeader (hs : List (String × String)) (peer h : String) :
    (mkContext hs peer).GetHeader h = (mkContext hs "").GetHeader h := rfl

theorem delHeader_same (c : Context) (name : String) :
    (c.delHeader name).GetHeader name = "" := by
  simp [Context.delHeader]

theorem delHeader_other (c : Context) {name h : String} (hne : h ≠ name) :
    (c.delHeader name).GetHeader h = c.GetHeader h := by
  simp [Context.delHeader, hne]

theorem loop_delHeader (c : Context) (name : String) (hn : notUsable c name)
    (hs : List String) :
    getClientIP.loop c hs = getClientIP.loop (c.delHeader name) hs := by
  induction hs with
  | nil => rfl
  | cons a hs ih =>
    by_cases ha : a = name
    · subst ha
      rw [loop_skip hn, loop_skip (Or.inl (delHeader_same c a))]
      exact ih
    · rw [getClientIP.loop, getClientIP.loop, delHeader_other c ha, ih]

theorem IndexByte_drop (c : Char) :
    ∀ (s : List Char) (i : Nat), strings.IndexByte s c = some i →
      s.drop i = c :: s.drop (i + 1) := by
  intro s
  induction s with
  | nil => intro i h; cases h
  | cons x t ih =>
    intro i h
    rw [strings.IndexByte] at h
    by_cases hx : x = c
    · rw [if_pos hx] at h
      cases h
      simp [hx]
    · rw [if_neg hx] at h
      cases ht : strings.IndexByte t c with
      | none => rw [ht] at h; cases h
      | some j =>
        rw [ht] at h
        cases h
        simpa using ih j ht

theorem LastIndexByte_drop (c : Char) :
    ∀ (s : List Char) (i : Nat), strings.LastIndexByte s c = some i →
      s.drop i = c :: s.drop (i + 1) := by
  intro s
  induction s with
  | nil => intro i h; cases h
  | cons x t ih =>
    intro i h
    rw [strings.LastIndexByte] at h
    cases ht : strings.LastIndexByte t c with
    | some j =>
      rw [ht] at h
      cases h
      simpa using ih j ht
    | none =>
      rw [ht] at h
      by_cases hx : x = c
      · simp only [hx, if_true] at h
        cases h
        simp [hx]
      · simp only [hx, if_false] at h
        cases h

/-- A successful `net.SplitHostPort` cuts `host:port` or `[host]:port`. -/
theorem SplitHostPort_ok (hostport host port : String)
    (h : net.SplitHostPort hostport = .ok (host, port)) :
    hostport = host ++ ":" ++ port ∨ hostport = "[" ++ host ++ "]:" ++ port := by
  unfold net.SplitHostPort at h
  dsimp only at h
  cases hl : strings.LastIndexByte hostport.data ':' with
  | none => rw [hl] at h; cases h
  | some i =>
    rw [hl] at h
    have hcut := LastIndexByte_drop ':' hostport.data i hl
    dsimp only at h
    by_cases hb : hostport.data.head? = some '['
    · rw [if_pos hb] at h
      cases he : strings.IndexByte hostport.data ']' with
      | none => rw [he] at h; cases h
      | some e =>
        rw [he] at h
        have hcut2 := IndexByte_drop ']' hostport.data e he
        dsimp only at h
        by_cases h1 : e + 1 = hostport.data.length
        · rw [if_pos h1] at h; cases h
        · rw [if_neg h1] at h
          by_cases h2 : e + 1 = i
          · rw [if_pos h2] at h
            dsimp only at h
            split at h
            · cases h
            · split at h
              · cases h
              · injection h with h
                injection h with hhost hport
                right
                subst h2
                apply String.ext
                rw [← hhost, ← hport]
                simp only [String.data_append]
                cases hd : hostport.data with
                | nil => rw [hd] at hb; cases hb
                | cons x tl =>
                  rw [hd] at hb hcut hcut2 he
                  have hx : x = '[' := by simpa using hb
                  subst hx
                  cases e with
                  | zero =>
                    rw [strings.IndexByte] at he
                    simp at he
                  | succ j =>
                    simp only [List.drop_succ_cons, List.take_succ_cons] at hcut hcut2 ⊢
                    rw [hcut] at hcut2
                    have := List.take_append_drop j tl
                    rw [hcut2] at this
                    show '[' :: tl = ['['] ++ List.drop 1 ('[' :: List.take j tl) ++ [']', ':']
                      ++ List.drop (j + 1 + 1) tl
                    simp only [List.drop_succ_cons, List.drop_zero, List.cons_append,
                      List.nil_append, List.append_assoc, List.singleton_append]
                    rw [this]
          · rw [if_neg h2] at h
            by_cases h3 : hostport.data.get? (e + 1) = some ':'
            · rw [if_pos h3] at h; cases h
            · rw [if_neg h3] at h; cases h
    · rw [if_neg hb] at h
      by_cases hc : (strings.IndexByte (List.take i hostport.data) ':').isSome = true
      · rw [if_pos hc] at h; cases h
      · rw [if_neg hc] at h
        dsimp only at h
        split at h
        · cases h
        · split at h
          · cases h
          · injection h with h
            injection h with hhost hport
            left
            apply String.ext
            rw [← hhost, ← hport]
            simp only [String.data_append]
            have := List.take_append_drop i hostport.data
            rw [hcut] at this
            show hostport.data = List.take i hostport.data ++ [':']
              ++ List.drop (i + 1) hostport.data
            simp only [List.append_assoc, List.singleton_append]
            exact this.symm

theorem loop_none_imp (c : Context) (hs : List String)
    (h : getClientIP.loop c hs = some none) : ∀ a ∈ hs, notUsable c a := by
  induction hs with
  | nil => intro a ha; exact absurd ha (List.not_mem_nil _)
  | cons x hs ih =>
    by_cases hn : notUsable c x
    · rw [loop_skip hn] at h
      intro a ha
      rcases List.mem_cons.1 ha with hx | ha
      · rw [hx]; exact hn
      · exact ih h a ha
    · obtain ⟨v, hv⟩ := headerValue_total x (c.GetHeader x)
      have hi : isValidIP v = true := by
        cases hb : isValidIP v
        · exact absurd (Or.inr ⟨v, hv, hb⟩) hn
        · rfl
      rw [loop_hit hv hi hs] at h
      cases h

theorem getClientIP_total (c : Context) : ∃ ip, getClientIP c = some ip := by
  unfold getClientIP
  obtain ⟨r, hr⟩ := loop_total c headers
  rw [hr]
  cases r with
  | none => exact ⟨_, rfl⟩
  | some ip => exact ⟨_, rfl⟩

theorem getClientIP_fallback (c : Context) (hnone : ∀ h ∈ headers, notUsable c h) :
    getClientIP c = some (peerFallback c.RemoteAddr) := by
  unfold getClientIP
  rw [loop_none_usable c headers hnone]

theorem getIPv4_of_getClientIP {c : Context} {ip : String} (h : getClientIP c = some ip) :
    getIPv4 c = some (match net.ParseIP ip with
      | some parsedIP => if (net.IP.To4 parsedIP).isSome then ip else ""
      | none => "") := by
  unfold getIPv4
  rw [h]
  dsimp only
  cases net.ParseIP ip with
  | none => rfl
  | some p =>
    dsimp only
    by_cases h4 : (net.IP.To4 p).isSome = true
    · rw [if_pos h4, if_pos h4]
    · rw [if_neg h4, if_neg h4]

theorem getIPv6_of_getClientIP {c : Context} {ip : String} (h : getClientIP c = some ip) :
    getIPv6 c = some (match net.ParseIP ip with
      | some parsedIP => if (net.IP.To4 parsedIP).isNone then ip else ""
      | none => "") := by
  unfold getIPv6
  rw [h]
  dsimp only
  cases net.ParseIP ip with
  | none => rfl
  | some p =>
    dsimp only
    by_cases h4 : (net.IP.To4 p).isNone = true
    · rw [if_pos h4, if_pos h4]
    · rw [if_neg h4, if_neg h4]

theorem getIPv4_total (c : Context) : ∃ ip, getIPv4 c = some ip := by
  obtain ⟨r, hr⟩ := getClientIP_total c
  exact ⟨_, getIPv4_of_getClientIP hr⟩

theorem getIPv6_total (c : Context) : ∃ ip, getIPv6 c = some ip := by
  obtain ⟨r, hr⟩ := getClientIP_total c
  exact ⟨_, getIPv6_of_getClientIP hr⟩

theorem getClientIP_delHeader (c : Context) (name : String) (hn : notUsable c name) :
    getClientIP c = getClientIP (c.delHeader name) := by
  unfold getClientIP
  rw [← loop_delHeader c name hn headers]
  rfl

/-! ### `net.ParseIP` on IPv4-mapped text `::ffff:a.b.c.d` -/

theorem hexDigit_of_digit {c : Char} (h : '0' ≤ c ∧ c ≤ '9') :
    netip.hexDigit c = some (c.toNat - '0'.toNat) := by
  unfold netip.hexDigit
  rw [if_pos h]

theorem digit_le_nine {c : Char} (h : '0' ≤ c ∧ c ≤ '9') : c.toNat - '0'.toNat ≤ 9 := by
  have h2 : c.toNat ≤ 57 := h.2
  have h0 : '0'.toNat = 48 := rfl
  omega

theorem hex_step_bound (acc d digLen : Nat) (hacc : acc < 16 ^ digLen) (hlen : digLen ≤ 2)
    (hd : d ≤ 9) : acc * 16 + d < 16 ^ (digLen + 1) ∧ 16 ^ (digLen + 1) ≤ 4096 := by
  interval_cases digLen <;> simp at hacc ⊢ <;> omega

/-- On text accepted by `parseIPv4Fields` the hexadecimal reader of
`parseIPv6` stops at the first dot, behind one to three digits. -/
theorem parseIPv4Fields_loop_hex :
    ∀ (s : List Char) (first prevDot : Bool) (val pos digLen : Nat) (fields r : List Nat)
      (acc : Nat),
      netip.parseIPv4Fields.loop s first prevDot val pos digLen fields = some r →
      pos < 3 →
      (digLen = 0 → first = true ∨ prevDot = true) →
      digLen ≤ 3 → (2 ≤ digLen → 10 ≤ val) → (3 ≤ digLen → 100 ≤ val) →
      acc < 16 ^ digLen →
      ∃ off acc1 rest,
        netip.parseIPv6.hex s digLen acc = some (off, acc1, '.' :: rest) ∧ off ≠ 0 := by
  intro s
  induction s with
  | nil =>
    intro first prevDot val pos digLen fields r acc h hpos
    rw [netip.parseIPv4Fields.loop, if_pos hpos] at h
    cases h
  | cons c cs ih =>
    intro first prevDot val pos digLen fields r acc h hpos hJ h3 h10 h100 hacc
    rw [netip.parseIPv4Fields.loop] at h
    by_cases hd : '0' ≤ c ∧ c ≤ '9'
    · rw [if_pos hd] at h
      by_cases hz : digLen = 1 ∧ val = 0
      · rw [if_pos hz] at h; cases h
      · rw [if_neg hz] at h
        dsimp only at h
        by_cases hv : val * 10 + (c.toNat - '0'.toNat) > 255
        · rw [if_pos hv] at h; cases h
        · rw [if_neg hv] at h
          have hd9 := digit_le_nine hd
          have hlen : digLen ≤ 2 := by omega
          have hb := hex_step_bound acc (c.toNat - '0'.toNat) digLen hacc hlen hd9
          have hacc1 : ((acc * 16) % 2 ^ 32 + (c.toNat - '0'.toNat)) % 2 ^ 32
              = acc * 16 + (c.toNat - '0'.toNat) := by
            have e : (2 : Nat) ^ 32 = 4294967296 := by norm_num
            rw [e]
            omega
          rw [netip.parseIPv6.hex, hexDigit_of_digit hd]
          dsimp only
          rw [hacc1, if_neg (by omega), if_neg (by omega)]
          exact ih false false _ pos (digLen + 1) fields r _ h hpos (by omega) (by omega)
            (by omega) (by omega) hb.1
    · rw [if_neg hd] at h
      by_cases hdot : c = '.'
      · subst hdot
        rw [if_pos rfl] at h
        by_cases hbad : first = true ∨ cs = [] ∨ prevDot = true
        · rw [if_pos hbad] at h; cases h
        · have hx : netip.hexDigit '.' = none := by decide
          rw [netip.parseIPv6.hex, hx]
          refine ⟨digLen, acc, cs, rfl, fun e => hbad ?_⟩
          rcases hJ e with a | a
          · exact Or.inl a
          · exact Or.inr (Or.inr a)
      · rw [if_neg hdot] at h; cases h

/-- Text accepted by `parseIPv4Fields` yields four octets. -/
theorem parseIPv4Fields_loop_length :
    ∀ (s : List Char) (first prevDot : Bool) (val pos digLen : Nat) (fields r : List Nat),
      netip.parseIPv4Fields.loop s first prevDot val pos digLen fields = some r →
      fields.length = pos → pos ≤ 3 → r.length = 4 := by
  intro s
  induction s with
  | nil =>
    intro first prevDot val pos digLen fields r h hf hp
    rw [netip.parseIPv4Fields.loop] at h
    by_cases hpos : pos < 3
    · rw [if_pos hpos] at h; cases h
    · rw [if_neg hpos] at h
      cases h
      simp [hf]; omega
  | cons c cs ih =>
    intro first prevDot val pos digLen fields r h hf hp
    rw [netip.parseIPv4Fields.loop] at h
    by_cases hd : '0' ≤ c ∧ c ≤ '9'
    · rw [if_pos hd] at h
      by_cases hz : digLen = 1 ∧ val = 0
      · rw [if_pos hz] at h; cases h
      · rw [if_neg hz] at h
        dsimp only at h
        by_cases hv : val * 10 + (c.toNat - '0'.toNat) > 255
        · rw [if_pos hv] at h; cases h
        · rw [if_neg hv] at h
          exact ih _ _ _ _ _ _ _ h hf hp
    · rw [if_neg hd] at h
      by_cases hdot : c = '.'
      · rw [if_pos hdot] at h
        by_cases hbad : first = true ∨ cs = [] ∨ prevDot = true
        · rw [if_pos hbad] at h; cases h
        · rw [if_neg hbad] at h
          by_cases h3 : pos = 3
          · rw [if_pos h3] at h; cases h
          · rw [if_neg h3] at h
            exact ih _ _ _ _ _ _ _ h (by simp [hf]) (by omega)
      · rw [if_neg hdot] at h; cases h

/-- Text accepted by `parseIPv4Fields` has no `%`. -/
theorem parseIPv4Fields_loop_no_percent :
    ∀ (s : List Char) (first prevDot : Bool) (val pos digLen : Nat) (fields r : List Nat),
      netip.parseIPv4Fields.loop s first prevDot val pos digLen fields = some r →
      strings.IndexByte s '%' = none := by
  intro s
  induction s with
  | nil => intro _ _ _ _ _ _ _ _; rfl
  | cons c cs ih =>
    intro first prevDot val pos digLen fields r h
    rw [netip.parseIPv4Fields.loop] at h
    rw [strings.IndexByte]
    by_cases hd : '0' ≤ c ∧ c ≤ '9'
    · have hc : c ≠ '%' := by
        intro e
        rw [e] at hd
        exact absurd hd (by decide)
      rw [if_neg hc]
      rw [if_pos hd] at h
      by_cases hz : digLen = 1 ∧ val = 0
      · rw [if_pos hz] at h; cases h
      · rw [if_neg hz] at h
        dsimp only at h
        by_cases hv : val * 10 + (c.toNat - '0'.toNat) > 255
        · rw [if_pos hv] at h; cases h
        · rw [if_neg hv] at h
          rw [ih _ _ _ _ _ _ _ h]
          rfl
    · rw [if_neg hd] at h
      by_cases hdot : c = '.'
      · have hc : c ≠ '%' := by rw [hdot]; decide
        rw [if_neg hc]
        rw [if_pos hdot] at h
        by_cases hbad : first = true ∨ cs = [] ∨ prevDot = true
        · rw [if_pos hbad] at h; cases h
        · rw [if_neg hbad] at h
          by_cases h3 : pos = 3
          · rw [if_pos h3] at h; cases h
          · rw [if_neg h3] at h
            rw [ih _ _ _ _ _ _ _ h]
            rfl
      · rw [if_neg hdot] at h; cases h

theorem parseIPv4Fields_first_digit {c : Char} {cs : List Char} {r : List Nat}
    (h : netip.parseIPv4Fields (c :: cs) = some r) : '0' ≤ c ∧ c ≤ '9' := by
  unfold netip.parseIPv4Fields at h
  rw [netip.parseIPv4Fields.loop] at h
  by_cases hd : '0' ≤ c ∧ c ≤ '9'
  · exact hd
  · rw [if_neg hd] at h
    by_cases hdot : c = '.'
    · rw [if_pos hdot, if_pos (Or.inl rfl)] at h; cases h
    · rw [if_neg hdot] at h; cases h

/-- The loop of `parseIPv6` on `ffff:` followed by a dotted quad. -/
theorem parseIPv6_loop_mapped (q : List Char) (fields : List Nat)
    (hq : netip.parseIPv4Fields q = some fields) :
    netip.parseIPv6.loop 8 ('f' :: 'f' :: 'f' :: 'f' :: ':' :: q) [] (some 0)
      = some ([], [0xff, 0xff] ++ fields, some 0) := by
  have hhex : netip.parseIPv6.hex ('f' :: 'f' :: 'f' :: 'f' :: ':' :: q) 0 0
      = some (4, 0xffff, ':' :: q) := by rfl
  cases q with
  | nil => cases hq
  | cons c1 s2 =>
    have hd := parseIPv4Fields_first_digit hq
    have hc1 : c1 ≠ ':' := by
      intro e
      rw [e] at hd
      exact absurd hd (by decide)
    obtain ⟨off, acc1, rest, hh, hoff⟩ := parseIPv4Fields_loop_hex (c1 :: s2) true false 0 0 0 []
      fields 0 hq (by decide) (fun _ => Or.inl rfl) (by decide) (by decide) (by decide)
      (by decide)
    rw [netip.parseIPv6.loop]
    simp only [hhex]
    simp [hc1]
    rw [netip.parseIPv6.loop]
    simp only [hh]
    simp [hoff]
    rw [hq]

/-- `net.ParseIP` accepts `::ffff:` followed by a dotted quad and gives the
IPv4-mapped 16-byte form. -/
theorem ParseIP_v4_mapped (q : String) (fields : List Nat)
    (hq : netip.parseIPv4Fields q.data = some fields) :
    net.ParseIP ("::ffff:" ++ q)
      = some ([0, 0, 0, 0, 0, 0, 0, 0, 0, 0, 0xff, 0xff] ++ fields) := by
  have hdata : ("::ffff:" ++ q).data
      = ':' :: ':' :: 'f' :: 'f' :: 'f' :: 'f' :: ':' :: q.data := by
    rw [String.data_append]; rfl
  have hlen := parseIPv4Fields_loop_length q.data true false 0 0 0 [] fields hq rfl (by decide)
  have hpct : strings.IndexByte (':' :: ':' :: 'f' :: 'f' :: 'f' :: 'f' :: ':' :: q.data) '%'
      = none := by
    simp [strings.IndexByte, parseIPv4Fields_loop_no_percent q.data true false 0 0 0 [] fields hq]
  unfold net.ParseIP netip.ParseAddr
  rw [hdata, netip.ParseAddr.scan, if_neg (by decide), if_pos rfl]
  unfold netip.parseIPv6
  simp only [hpct]
  simp [parseIPv6_loop_mapped q.data fields hq, hlen]

/-- `IP.To4` of an IPv4-mapped 16-byte address is its last four bytes. -/
theorem To4_v4_mapped (fields : List Nat) (hlen : fields.length = 4) :
    net.IP.To4 ([0, 0, 0, 0, 0, 0, 0, 0, 0, 0, 0xff, 0xff] ++ fields) = some fields := by
  unfold net.IP.To4
  simp [hlen]


/-! ### The standard-library models on known inputs -/

/-- `net.ParseIP` on dotted quads: four decimal octets, no leading zero. -/
theorem ParseIP_dotted_quad_checks :
    net.ParseIP "203.0.113.5" = some [0, 0, 0, 0, 0, 0, 0, 0, 0, 0, 255, 255, 203, 0, 113, 5]
      ∧ net.ParseIP "0.0.0.0" = some [0, 0, 0, 0, 0, 0, 0, 0, 0, 0, 255, 255, 0, 0, 0, 0]
      ∧ net.ParseIP "1.2.3.04" = none
      ∧ net.ParseIP "1.2.3" = none
      ∧ net.ParseIP "1.2.3.4.5" = none
      ∧ net.ParseIP "1.2.3.256" = none
      ∧ net.ParseIP "1.2.3.4:80" = none
      ∧ net.ParseIP " 1.2.3.4" = none
      ∧ net.ParseIP "12345" = none
      ∧ net.ParseIP "garbage" = none
      ∧ net.ParseIP "" = none := by
  decide

/-- `net.ParseIP` on colon-hex text: compression, embedded IPv4, zones. -/
theorem ParseIP_colon_hex_checks :
    net.ParseIP "2001:db8::1" = some [0x20, 0x01, 0x0d, 0xb8, 0, 0, 0, 0, 0, 0, 0, 0, 0, 0, 0, 1]
      ∧ net.ParseIP "::" = some (List.replicate 16 0)
      ∧ net.ParseIP "1::" = some [0, 1, 0, 0, 0, 0, 0, 0, 0, 0, 0, 0, 0, 0, 0, 0]
      ∧ net.ParseIP "1:2:3:4:5:6:7:8" = some [0, 1, 0, 2, 0, 3, 0, 4, 0, 5, 0, 6, 0, 7, 0, 8]
      ∧ net.ParseIP "1:2:3:4:5:6:7::" = some [0, 1, 0, 2, 0, 3, 0, 4, 0, 5, 0, 6, 0, 7, 0, 0]
      ∧ net.ParseIP "FFFF::abcd" = some [255, 255, 0, 0, 0, 0, 0, 0, 0, 0, 0, 0, 0, 0, 0xab, 0xcd]
      ∧ net.ParseIP "::ffff:192.0.2.1" = some [0, 0, 0, 0, 0, 0, 0, 0, 0, 0, 255, 255, 192, 0, 2, 1]
      ∧ net.ParseIP "1:2:3:4:5:6:1.2.3.4" = some [0, 1, 0, 2, 0, 3, 0, 4, 0, 5, 0, 6, 1, 2, 3, 4]
      ∧ net.ParseIP "1:2:3:4:5:1.2.3.4" = none
      ∧ net.ParseIP "1:2:3:4:5:6:7:8::" = none
      ∧ net.ParseIP "::1:2:3:4:5:6:7:8" = none
      ∧ net.ParseIP "1:2:3:4:5:6:7:8:9" = none
      ∧ net.ParseIP "1:2:3:4:5:6:7" = none
      ∧ net.ParseIP "1::2::3" = none
      ∧ net.ParseIP ":1::" = none
      ∧ net.ParseIP "1:" = none
      ∧ net.ParseIP "00001::" = none
      ∧ net.ParseIP "fe80::1%eth0" = none := by
  decide

/-- `IP.To4` has a result exactly for the IPv4-mapped 16-byte form. -/
theorem To4_checks :
    net.IP.To4 [0, 0, 0, 0, 0, 0, 0, 0, 0, 0, 255, 255, 1, 2, 3, 4] = some [1, 2, 3, 4]
      ∧ net.IP.To4 [0, 0, 0, 0, 0, 0, 0, 0, 0, 0, 0, 0, 1, 2, 3, 4] = none
      ∧ net.IP.To4 [0x20, 0x01, 0x0d, 0xb8, 0, 0, 0, 0, 0, 0, 0, 0, 0, 0, 0, 1] = none := by
  decide

/-- `net.SplitHostPort` on well-formed and malformed addresses. -/
theorem SplitHostPort_checks :
    net.SplitHostPort "192.0.2.10:54321" = .ok ("192.0.2.10", "54321")
      ∧ net.SplitHostPort "[::1]:80" = .ok ("::1", "80")
      ∧ net.SplitHostPort ":80" = .ok ("", "80")
      ∧ net.SplitHostPort "not-a-valid-address" = .error "missing port in address"
      ∧ net.SplitHostPort "" = .error "missing port in address"
      ∧ net.SplitHostPort "a:b:80" = .error "too many colons in address"
      ∧ net.SplitHostPort "[a:b]80" = .error "missing port in address"
      ∧ net.SplitHostPort "[a:b]" = .error "missing port in address"
      ∧ net.SplitHostPort "[a]:b:80" = .error "too many colons in address"
      ∧ net.SplitHostPort "[a:b:80" = .error "missing ']' in address"
      ∧ net.SplitHostPort "a[b]:80" = .error "unexpected '[' in address"
      ∧ net.SplitHostPort "a]:80" = .error "unexpected ']' in address" :=
  ⟨rfl, rfl, rfl, rfl, rfl, rfl, rfl, rfl, rfl, rfl, rfl, rfl⟩

/-- `strings.Split` and `strings.TrimSpace` on small inputs. -/
theorem Split_TrimSpace_checks :
    strings.Split "203.0.113.5, 10.0.0.1" "," = ["203.0.113.5", " 10.0.0.1"]
      ∧ strings.Split "" "," = [""]
      ∧ strings.Split ",a,,b," "," = ["", "a", "", "b", ""]
      ∧ strings.Split "a--b-c" "--" = ["a", "b-c"]
      ∧ strings.Split "abc" "" = ["a", "b", "c"]
      ∧ strings.Split "" "" = []
      ∧ strings.TrimSpace "  a b " = "a b"
      ∧ strings.TrimSpace "\t\n 1.2.3.4 \r\n" = "1.2.3.4"
      ∧ strings.TrimSpace "" = "" := by
  decide

/-! ## The claims -/

/-- C1: when `CF-Connecting-IP` holds a string that parses as an IP address,
`getClientIP` returns exactly that string, whatever the other headers and the
peer address are. -/
theorem C1_cf_connecting_ip_wins (c : Context)
    (h : isValidIP (c.GetHeader "CF-Connecting-IP") = true) :
    getClientIP c = some (c.GetHeader "CF-Connecting-IP") := by
  have hv : headerValue "CF-Connecting-IP" (c.GetHeader "CF-Connecting-IP")
      = some (c.GetHeader "CF-Connecting-IP") := headerValue_of_ne (by decide) _
  have hl := loop_first_match c [] "CF-Connecting-IP" _ (headers.drop 1)
    (fun _ hh => absurd hh (List.not_mem_nil _)) hv h
  have hh : headers = [] ++ "CF-Connecting-IP" :: headers.drop 1 := rfl
  unfold getClientIP
  rw [hh, hl]

/-- Witness of C1: `CF-Connecting-IP: 2001:db8::7` wins over a valid
`X-Forwarded-For` and `X-Real-IP`. -/
theorem C1_cf_connecting_ip_wins_witness :
    getClientIP (mkContext [("X-Forwarded-For", "203.0.113.5, 10.0.0.1"),
        ("X-Real-IP", "198.51.100.7"), ("CF-Connecting-IP", "2001:db8::7")] "192.0.2.10:54321")
      = some "2001:db8::7" :=
  C1_cf_connecting_ip_wins _ (by decide)

/-- C2: first match wins over the fixed order of `headers`. The value of a
header after the per-header transform is `strings.TrimSpace` of entry 0 of
`strings.Split(value, ",")` for `X-Forwarded-For` and the raw value for every
other header. If that value `v` of a listed header `H` parses as an IP address
and every header before `H` in the list is absent, empty or has a transformed
value that does not parse, then `getClientIP` returns `v`; the transformed
value of an earlier header is not returned. -/
theorem C2_first_match_wins (c : Context) (pre post : List String) (H v : String)
    (hlist : headers = pre ++ H :: post)
    (hpre : ∀ h ∈ pre,
      c.GetHeader h = ""
        ∨ (h = "X-Forwarded-For"
          ∧ ∃ first, (strings.Split (c.GetHeader h) ",")[0]? = some first
            ∧ isValidIP (strings.TrimSpace first) = false)
        ∨ (h ≠ "X-Forwarded-For" ∧ isValidIP (c.GetHeader h) = false))
    (hv : (H = "X-Forwarded-For"
          ∧ ∃ first, (strings.Split (c.GetHeader H) ",")[0]? = some first
            ∧ v = strings.TrimSpace first)
        ∨ (H ≠ "X-Forwarded-For" ∧ v = c.GetHeader H))
    (hi : isValidIP v = true) :
    headers = ["CF-Connecting-IP", "X-Forwarded-For", "X-Real-IP", "X-Client-IP",
        "X-Forwarded", "X-Cluster-Client-IP", "Forwarded-For", "Forwarded"]
      ∧ getClientIP c = some v
      ∧ ∀ h ∈ pre,
        (h ≠ "X-Forwarded-For" → getClientIP c ≠ some (c.GetHeader h))
          ∧ (h = "X-Forwarded-For" → ∀ first,
              (strings.Split (c.GetHeader h) ",")[0]? = some first →
              getClientIP c ≠ some (strings.TrimSpace first)) := by
  have hv1 : headerValue H (c.GetHeader H) = some v := by
    rcases hv with ⟨e, first, hf, hvf⟩ | ⟨e, hvr⟩
    · rw [e, headerValue_xff, ← e, hf, hvf]; rfl
    · rw [hvr]; exact headerValue_of_ne e _
  have hpre1 : ∀ h ∈ pre, notUsable c h := by
    intro h hh
    rcases hpre h hh with e | ⟨e, first, hf, hinv⟩ | ⟨e, hinv⟩
    · exact Or.inl e
    · refine Or.inr ⟨strings.TrimSpace first, ?_, hinv⟩
      rw [e, headerValue_xff, ← e, hf]; rfl
    · exact Or.inr ⟨_, headerValue_of_ne e _, hinv⟩
  have hres : getClientIP c = some v := by
    unfold getClientIP
    rw [hlist, loop_first_match c pre H v post hpre1 hv1 hi]
  refine ⟨rfl, hres, ?_⟩
  intro h hh
  have hbad : ∀ w, headerValue h (c.GetHeader h) = some w → getClientIP c ≠ some w := by
    intro w hw heq
    rw [hres] at heq
    cases heq
    rw [notUsable_of_invalid (hpre1 h hh) hw] at hi
    exact Bool.noConfusion hi
  constructor
  · intro hne
    exact hbad _ (headerValue_of_ne hne _)
  · intro e first hf
    apply hbad
    rw [e, headerValue_xff, ← e, hf]; rfl

/-- Witness of C2. First request: `CF-Connecting-IP: garbage` is skipped,
`X-Forwarded-For` is absent, and `X-Real-IP: 198.51.100.7` is returned.
Second request: `X-Forwarded-For` is the first usable header and its trimmed
first entry `203.0.113.5` is returned, not the raw chain and not `X-Real-IP`.
Third request: an `X-Forwarded-For` whose first entry does not parse is
skipped and `X-Real-IP` is returned. -/
theorem C2_first_match_wins_witness :
    (getClientIP (mkContext [("CF-Connecting-IP", "garbage"), ("X-Real-IP", "198.51.100.7")]
        "192.0.2.10:54321") = some "198.51.100.7"
      ∧ getClientIP (mkContext [("CF-Connecting-IP", "garbage"), ("X-Real-IP", "198.51.100.7")]
        "192.0.2.10:54321") ≠ some "garbage")
      ∧ getClientIP (mkContext [("CF-Connecting-IP", "garbage"),
          ("X-Forwarded-For", " 203.0.113.5 , 10.0.0.1"), ("X-Real-IP", "198.51.100.7")]
          "192.0.2.10:54321") = some "203.0.113.5"
      ∧ (getClientIP (mkContext [("X-Forwarded-For", "unknown, 198.51.100.9"),
          ("X-Real-IP", "198.51.100.7")] "192.0.2.10:54321") = some "198.51.100.7"
        ∧ getClientIP (mkContext [("X-Forwarded-For", "unknown, 198.51.100.9"),
          ("X-Real-IP", "198.51.100.7")] "192.0.2.10:54321") ≠ some "unknown") :=
  have h1 := C2_first_match_wins
    (mkContext [("CF-Connecting-IP", "garbage"), ("X-Real-IP", "198.51.100.7")]
      "192.0.2.10:54321")
    ["CF-Connecting-IP", "X-Forwarded-For"]
    ["X-Client-IP", "X-Forwarded", "X-Cluster-Client-IP", "Forwarded-For", "Forwarded"]
    "X-Real-IP" "198.51.100.7" rfl
    (by
      intro h hh
      rcases List.mem_cons.1 hh with e | hh
      · subst e; exact Or.inr (Or.inr ⟨by decide, by decide⟩)
      · rcases List.mem_cons.1 hh with e | hh
        · subst e; exact Or.inl (by decide)
        · exact absurd hh (List.not_mem_nil _))
    (Or.inr ⟨by decide, by decide⟩) (by decide)
  have h2 := C2_first_match_wins
    (mkContext [("CF-Connecting-IP", "garbage"),
      ("X-Forwarded-For", " 203.0.113.5 , 10.0.0.1"), ("X-Real-IP", "198.51.100.7")]
      "192.0.2.10:54321")
    ["CF-Connecting-IP"]
    ["X-Real-IP", "X-Client-IP", "X-Forwarded", "X-Cluster-Client-IP", "Forwarded-For",
      "Forwarded"]
    "X-Forwarded-For" "203.0.113.5" rfl
    (by
      intro h hh
      rcases List.mem_cons.1 hh with e | hh
      · subst e; exact Or.inr (Or.inr ⟨by decide, by decide⟩)
      · exact absurd hh (List.not_mem_nil _))
    (Or.inl ⟨rfl, " 203.0.113.5 ", by decide, by decide⟩) (by decide)
  have h3 := C2_first_match_wins
    (mkContext [("X-Forwarded-For", "unknown, 198.51.100.9"), ("X-Real-IP", "198.51.100.7")]
      "192.0.2.10:54321")
    ["CF-Connecting-IP", "X-Forwarded-For"]
    ["X-Client-IP", "X-Forwarded", "X-Cluster-Client-IP", "Forwarded-For", "Forwarded"]
    "X-Real-IP" "198.51.100.7" rfl
    (by
      intro h hh
      rcases List.mem_cons.1 hh with e | hh
      · subst e; exact Or.inl (by decide)
      · rcases List.mem_cons.1 hh with e | hh
        · subst e; exact Or.inr (Or.inl ⟨rfl, "unknown", by decide, by decide⟩)
        · exact absurd hh (List.not_mem_nil _))
    (Or.inr ⟨by decide, by decide⟩) (by decide)
  ⟨⟨h1.2.1, (h1.2.2 "CF-Connecting-IP" (List.mem_cons_self _ _)).1 (by decide)⟩,
    h2.2.1,
    ⟨h3.2.1, (h3.2.2 "X-Forwarded-For" (List.mem_cons_of_mem _ (List.mem_cons_self _ _))).2
      rfl "unknown" (by decide)⟩⟩

/-- C3: when `CF-Connecting-IP` is absent, empty or not a valid IP and the
first comma-separated entry of `X-Forwarded-For`, with surrounding white space
trimmed, parses as an IP address, `getClientIP` returns that trimmed first
entry; in particular `X-Forwarded-For: 203.0.113.5, 10.0.0.1` alone gives
`203.0.113.5`, for every peer address. The first entry is the text before the
first comma, so nothing behind that comma is returned. -/
theorem C3_forwarded_for_first_entry :
    (∀ (c : Context) (first : String),
        (c.GetHeader "CF-Connecting-IP" = ""
          ∨ isValidIP (c.GetHeader "CF-Connecting-IP") = false) →
        (strings.Split (c.GetHeader "X-Forwarded-For") ",")[0]? = some first →
        isValidIP (strings.TrimSpace first) = true →
        getClientIP c = some (strings.TrimSpace first))
      ∧ (∀ peer : String,
        getClientIP (mkContext [("X-Forwarded-For", "203.0.113.5, 10.0.0.1")] peer)
          = some "203.0.113.5")
      ∧ ∀ s : String,
        (strings.Split s ",")[0]? = some (String.mk (s.data.takeWhile (· ≠ ','))) := by
  have gen : ∀ (c : Context) (first : String),
      (c.GetHeader "CF-Connecting-IP" = ""
        ∨ isValidIP (c.GetHeader "CF-Connecting-IP") = false) →
      (strings.Split (c.GetHeader "X-Forwarded-For") ",")[0]? = some first →
      isValidIP (strings.TrimSpace first) = true →
      getClientIP c = some (strings.TrimSpace first) := by
    intro c first hcf hs hi
    have hv : headerValue "X-Forwarded-For" (c.GetHeader "X-Forwarded-For")
        = some (strings.TrimSpace first) := by rw [headerValue_xff, hs]; rfl
    have hpre : ∀ h ∈ ["CF-Connecting-IP"], notUsable c h := by
      intro h hh
      rcases List.mem_cons.1 hh with h1 | hh
      · subst h1
        rcases hcf with he | hinv
        · exact Or.inl he
        · exact Or.inr ⟨_, headerValue_of_ne (by decide) _, hinv⟩
      · exact absurd hh (List.not_mem_nil _)
    have hl := loop_first_match c ["CF-Connecting-IP"] "X-Forwarded-For" _
      (headers.drop 2) hpre hv hi
    have hh : headers = ["CF-Connecting-IP"] ++ "X-Forwarded-For" :: headers.drop 2 := rfl
    unfold getClientIP
    rw [hh, hl]
  refine ⟨gen, fun peer => ?_, Split_comma_first⟩
  exact gen (mkContext [("X-Forwarded-For", "203.0.113.5, 10.0.0.1")] peer) "203.0.113.5"
    (Or.inl (by rw [mkContext_GetHeader]; decide)) (by rw [mkContext_GetHeader]; decide)
    (by decide)

/-- Witness of C3: an invalid `CF-Connecting-IP` and a chain whose first entry
carries white space. -/
theorem C3_forwarded_for_first_entry_witness :
    getClientIP (mkContext [("CF-Connecting-IP", "unknown"),
        ("X-Forwarded-For", "  2001:db8::1 ,203.0.113.5, 10.0.0.1")] "192.0.2.10:54321")
      = some "2001:db8::1" :=
  C3_forwarded_for_first_entry.1
    (mkContext [("CF-Connecting-IP", "unknown"),
        ("X-Forwarded-For", "  2001:db8::1 ,203.0.113.5, 10.0.0.1")] "192.0.2.10:54321")
    "  2001:db8::1 " (Or.inr (by decide)) (by decide) (by decide)

/-- C4: when the first comma-separated entry of `X-Forwarded-For` does not
parse after trimming, `getClientIP` gives the same result as on the request
with `X-Forwarded-For` removed: later entries of the chain are not looked at. -/
theorem C4_forwarded_for_invalid_first_entry (c : Context) (first : String)
    (hs : (strings.Split (c.GetHeader "X-Forwarded-For") ",")[0]? = some first)
    (hi : isValidIP (strings.TrimSpace first) = false) :
    getClientIP c = getClientIP (c.delHeader "X-Forwarded-For") := by
  have hn : notUsable c "X-Forwarded-For" :=
    Or.inr ⟨strings.TrimSpace first, by rw [headerValue_xff, hs]; rfl, hi⟩
  unfold getClientIP
  rw [← loop_delHeader c "X-Forwarded-For" hn headers]
  rfl

/-- Witness of C4: for `not-an-ip, 198.51.100.7` and for a value starting
with a comma the later entry `198.51.100.7` is not returned; the result is
that of the request without the header, here the host of the peer address. -/
theorem C4_forwarded_for_invalid_first_entry_witness :
    (getClientIP (mkContext [("X-Forwarded-For", "not-an-ip, 198.51.100.7")] "192.0.2.10:54321")
        = getClientIP ((mkContext [("X-Forwarded-For", "not-an-ip, 198.51.100.7")]
            "192.0.2.10:54321").delHeader "X-Forwarded-For")
      ∧ getClientIP (mkContext [("X-Forwarded-For", "not-an-ip, 198.51.100.7")]
          "192.0.2.10:54321") = some "192.0.2.10")
      ∧ getClientIP (mkContext [("X-Forwarded-For", ",198.51.100.7"), ("X-Real-IP", "2001:db8::2")]
          "192.0.2.10:54321")
        = getClientIP ((mkContext [("X-Forwarded-For", ",198.51.100.7"),
            ("X-Real-IP", "2001:db8::2")] "192.0.2.10:54321").delHeader "X-Forwarded-For") :=
  ⟨⟨C4_forwarded_for_invalid_first_entry _ "not-an-ip" (by decide) (by decide), by decide⟩,
    C4_forwarded_for_invalid_first_entry _ "" (by decide) (by decide)⟩

/-- C5 as stated fails: with no headers and the peer address
`not-a-valid-address` the result is that text, which is neither empty nor an
IP address; so is the host of the peer address `[fe80::1%eth0]:1234`. -/
theorem C5_counterexample :
    getClientIP (mkContext [] "not-a-valid-address") = some "not-a-valid-address"
      ∧ "not-a-valid-address" ≠ "" ∧ isValidIP "not-a-valid-address" = false
      ∧ getClientIP (mkContext [] "[fe80::1%eth0]:1234") = some "fe80::1%eth0"
      ∧ isValidIP "fe80::1%eth0" = false := by
  decide

/-- C5, amended: the string returned by `getClientIP` parses as an IP address,
or no header is usable and the string is the peer-address fallback (the host
of the peer address, or the raw peer address), which is not validated. -/
theorem C5_resolved_ip_valid_or_peer_fallback (c : Context) :
    ∃ v, getClientIP c = some v
      ∧ (isValidIP v = true
        ∨ ((∀ h ∈ headers, notUsable c h) ∧ v = peerFallback c.RemoteAddr)) := by
  unfold getClientIP
  obtain ⟨r, hr⟩ := loop_total c headers
  rw [hr]
  cases r with
  | none => exact ⟨_, rfl, Or.inr ⟨loop_none_imp c headers hr, rfl⟩⟩
  | some ip => exact ⟨ip, rfl, Or.inl (loop_valid c headers ip hr)⟩

/-- C6: with no usable header and a peer address that `net.SplitHostPort`
splits into `host` and `port`, `getClientIP` returns `host`, where the peer
address is `host:port` or `[host]:port`. -/
theorem C6_peer_address_host (c : Context) (host port : String)
    (hnone : ∀ h ∈ headers, notUsable c h)
    (hsplit : net.SplitHostPort c.RemoteAddr = .ok (host, port)) :
    getClientIP c = some host
      ∧ (c.RemoteAddr = host ++ ":" ++ port ∨ c.RemoteAddr = "[" ++ host ++ "]:" ++ port) := by
  refine ⟨?_, SplitHostPort_ok _ _ _ hsplit⟩
  rw [getClientIP_fallback c hnone]
  unfold peerFallback
  rw [hsplit]

/-- Witness of C6: the peer addresses `192.0.2.10:54321` and
`[2001:db8::1]:443` without headers. -/
theorem C6_peer_address_host_witness :
    getClientIP (mkContext [] "192.0.2.10:54321") = some "192.0.2.10"
      ∧ getClientIP (mkContext [] "[2001:db8::1]:443") = some "2001:db8::1" :=
  ⟨(C6_peer_address_host (mkContext [] "192.0.2.10:54321") "192.0.2.10" "54321"
      (fun _ _ => Or.inl rfl) (by rfl)).1,
    (C6_peer_address_host (mkContext [] "[2001:db8::1]:443") "2001:db8::1" "443"
      (fun _ _ => Or.inl rfl) (by rfl)).1⟩

/-- C7: with no usable header and a peer address on which
`net.SplitHostPort` fails, `getClientIP` returns the peer address unchanged. -/
theorem C7_peer_address_raw (c : Context) (e : String)
    (hnone : ∀ h ∈ headers, notUsable c h)
    (hsplit : net.SplitHostPort c.RemoteAddr = .error e) :
    getClientIP c = some c.RemoteAddr := by
  rw [getClientIP_fallback c hnone]
  unfold peerFallback
  rw [hsplit]

/-- Witness of C7: the peer address `not-a-valid-address`, with an unusable
`X-Real-IP`. -/
theorem C7_peer_address_raw_witness :
    getClientIP (mkContext [("X-Real-IP", "unknown")] "not-a-valid-address")
      = some "not-a-valid-address" :=
  C7_peer_address_raw (mkContext [("X-Real-IP", "unknown")] "not-a-valid-address")
    "missing port in address"
    (fun h _ => by
      by_cases hx : h = "X-Real-IP"
      · subst hx; exact Or.inr ⟨"unknown", by decide, by decide⟩
      · exact Or.inl (by simp [mkContext, Ne.symm hx]))
    (by rfl)

/-- C8: `getIPv4` returns the result of `getClientIP` unchanged when it parses
as an IP address with a 4-byte form, and the empty string otherwise; when
`getClientIP` gives `2001:db8::1`, `getIPv4` gives the empty string. -/
theorem C8_getIPv4_classifies (c : Context) :
    ∃ ip, getClientIP c = some ip
      ∧ ((∃ p, net.ParseIP ip = some p ∧ net.IP.To4 p ≠ none) → getIPv4 c = some ip)
      ∧ ((¬ ∃ p, net.ParseIP ip = some p ∧ net.IP.To4 p ≠ none) → getIPv4 c = some "")
      ∧ (ip = "2001:db8::1" → getIPv4 c = some "") := by
  obtain ⟨ip, hip⟩ := getClientIP_total c
  refine ⟨ip, hip, ?_, ?_, ?_⟩
  · rintro ⟨p, hp, h4⟩
    unfold getIPv4
    rw [hip]; dsimp only; rw [hp]; dsimp only
    cases h : net.IP.To4 p with
    | none => exact absurd h h4
    | some q => rfl
  · intro hno
    unfold getIPv4
    rw [hip]; dsimp only
    cases hp : net.ParseIP ip with
    | none => rfl
    | some p =>
      dsimp only
      cases h : net.IP.To4 p with
      | none => rfl
      | some q => exact absurd ⟨p, hp, by rw [h]; exact Option.noConfusion⟩ hno
  · intro he
    subst he
    unfold getIPv4
    rw [hip]; dsimp only
    have : net.ParseIP "2001:db8::1"
        = some [0x20, 0x01, 0x0d, 0xb8, 0, 0, 0, 0, 0, 0, 0, 0, 0, 0, 0, 1] := by decide
    rw [this]
    rfl

/-- Witness of C8: a request resolved to `2001:db8::1` and one resolved to
`203.0.113.5`. -/
theorem C8_getIPv4_classifies_witness :
    getIPv4 (mkContext [("CF-Connecting-IP", "2001:db8::1")] "192.0.2.10:54321") = some ""
      ∧ getIPv4 (mkContext [] "203.0.113.5:54321") = some "203.0.113.5" :=
  ⟨match C8_getIPv4_classifies
        (mkContext [("CF-Connecting-IP", "2001:db8::1")] "192.0.2.10:54321") with
    | ⟨_, hip, _, _, h⟩ =>
      h (Option.some.inj (hip.symm.trans
        (by decide : getClientIP (mkContext [("CF-Connecting-IP", "2001:db8::1")]
          "192.0.2.10:54321") = some "2001:db8::1"))),
   match C8_getIPv4_classifies (mkContext [] "203.0.113.5:54321") with
    | ⟨_, hip, h, _, _⟩ =>
      have e := Option.some.inj (hip.symm.trans
        (by decide : getClientIP (mkContext [] "203.0.113.5:54321") = some "203.0.113.5"))
      e ▸ h (e ▸ ⟨[0, 0, 0, 0, 0, 0, 0, 0, 0, 0, 0xff, 0xff, 203, 0, 113, 5],
        by decide, by decide⟩)⟩

/-- C9: `getIPv6` returns the result of `getClientIP` unchanged when it parses
as an IP address without a 4-byte form, and the empty string otherwise, also
for text that does not parse; when `getClientIP` gives `203.0.113.5`,
`getIPv6` gives the empty string. -/
theorem C9_getIPv6_classifies (c : Context) :
    ∃ ip, getClientIP c = some ip
      ∧ ((∃ p, net.ParseIP ip = some p ∧ net.IP.To4 p = none) → getIPv6 c = some ip)
      ∧ ((¬ ∃ p, net.ParseIP ip = some p ∧ net.IP.To4 p = none) → getIPv6 c = some "")
      ∧ (net.ParseIP ip = none → getIPv6 c = some "")
      ∧ (ip = "203.0.113.5" → getIPv6 c = some "") := by
  obtain ⟨ip, hip⟩ := getClientIP_total c
  refine ⟨ip, hip, ?_, ?_, ?_, ?_⟩
  · rintro ⟨p, hp, h4⟩
    unfold getIPv6
    rw [hip]; dsimp only; rw [hp]; dsimp only; rw [h4]
    rfl
  · intro hno
    unfold getIPv6
    rw [hip]; dsimp only
    cases hp : net.ParseIP ip with
    | none => rfl
    | some p =>
      dsimp only
      cases h : net.IP.To4 p with
      | none => exact absurd ⟨p, hp, h⟩ hno
      | some q => rfl
  · intro hp
    unfold getIPv6
    rw [hip]; dsimp only; rw [hp]
  · intro he
    subst he
    unfold getIPv6
    rw [hip]; dsimp only
    have : net.ParseIP "203.0.113.5"
        = some [0, 0, 0, 0, 0, 0, 0, 0, 0, 0, 0xff, 0xff, 203, 0, 113, 5] := by decide
    rw [this]
    rfl

/-- Witness of C9: a request resolved to `203.0.113.5`, one resolved to
`2001:db8::1`, and one resolved to text that does not parse. -/
theorem C9_getIPv6_classifies_witness :
    getIPv6 (mkContext [("X-Real-IP", "203.0.113.5")] "192.0.2.10:54321") = some ""
      ∧ getIPv6 (mkContext [] "[2001:db8::1]:443") = some "2001:db8::1"
      ∧ getIPv6 (mkContext [] "not-a-valid-address") = some "" :=
  ⟨match C9_getIPv6_classifies (mkContext [("X-Real-IP", "203.0.113.5")] "192.0.2.10:54321") with
    | ⟨_, hip, _, _, _, h⟩ =>
      h (Option.some.inj (hip.symm.trans
        (by decide : getClientIP (mkContext [("X-Real-IP", "203.0.113.5")]
          "192.0.2.10:54321") = some "203.0.113.5"))),
   match C9_getIPv6_classifies (mkContext [] "[2001:db8::1]:443") with
    | ⟨_, hip, h, _, _, _⟩ =>
      have e := Option.some.inj (hip.symm.trans
        (by decide : getClientIP (mkContext [] "[2001:db8::1]:443") = some "2001:db8::1"))
      e ▸ h (e ▸ ⟨[0x20, 0x01, 0x0d, 0xb8, 0, 0, 0, 0, 0, 0, 0, 0, 0, 0, 0, 1],
        by decide, by decide⟩),
   match C9_getIPv6_classifies (mkContext [] "not-a-valid-address") with
    | ⟨_, hip, _, _, h, _⟩ =>
      have e := Option.some.inj (hip.symm.trans
        (by decide : getClientIP (mkContext [] "not-a-valid-address")
          = some "not-a-valid-address"))
      h (e ▸ (by decide : net.ParseIP "not-a-valid-address" = none))⟩

/-- C10: `handleIPv4` answers 404 with the member `error: No IPv4 address
found` exactly when `getIPv4` returns the empty string, and otherwise 200 with
the member `ip` holding the result of `getIPv4`; `handleIPv6` does the same
with `getIPv6` and `No IPv6 address found`. -/
theorem C10_family_handlers (c : Context) :
    (∃ ip, getIPv4 c = some ip
      ∧ (handleIPv4 c = some ⟨404, [("error", "No IPv4 address found")]⟩ ↔ ip = "")
      ∧ (ip ≠ "" → handleIPv4 c = some ⟨200, [("ip", ip)]⟩))
    ∧ (∃ ip, getIPv6 c = some ip
      ∧ (handleIPv6 c = some ⟨404, [("error", "No IPv6 address found")]⟩ ↔ ip = "")
      ∧ (ip ≠ "" → handleIPv6 c = some ⟨200, [("ip", ip)]⟩)) := by
  obtain ⟨r, hr⟩ := getClientIP_total c
  constructor
  · have h4 : ∃ ip, getIPv4 c = some ip := by
      unfold getIPv4
      rw [hr]; dsimp only
      cases net.ParseIP r with
      | none => exact ⟨_, rfl⟩
      | some p =>
        dsimp only
        by_cases h : (net.IP.To4 p).isSome = true
        · rw [if_pos h]; exact ⟨_, rfl⟩
        · rw [if_neg h]; exact ⟨_, rfl⟩
    obtain ⟨ip, hip⟩ := h4
    refine ⟨ip, hip, ?_, ?_⟩
    · unfold handleIPv4
      rw [hip]; dsimp only
      by_cases he : ip = ""
      · rw [if_pos he]
        exact ⟨fun _ => he, fun _ => rfl⟩
      · rw [if_neg he]
        constructor
        · intro h
          have hst : (200 : Nat) = 404 := congrArg Response.status (Option.some.inj h)
          exact absurd hst (by decide)
        · intro h; exact absurd h he
    · intro he
      unfold handleIPv4
      rw [hip]; dsimp only
      rw [if_neg he]
      rfl
  · have h6 : ∃ ip, getIPv6 c = some ip := by
      unfold getIPv6
      rw [hr]; dsimp only
      cases net.ParseIP r with
      | none => exact ⟨_, rfl⟩
      | some p =>
        dsimp only
        by_cases h : (net.IP.To4 p).isNone = true
        · rw [if_pos h]; exact ⟨_, rfl⟩
        · rw [if_neg h]; exact ⟨_, rfl⟩
    obtain ⟨ip, hip⟩ := h6
    refine ⟨ip, hip, ?_, ?_⟩
    · unfold handleIPv6
      rw [hip]; dsimp only
      by_cases he : ip = ""
      · rw [if_pos he]
        exact ⟨fun _ => he, fun _ => rfl⟩
      · rw [if_neg he]
        constructor
        · intro h
          have hst : (200 : Nat) = 404 := congrArg Response.status (Option.some.inj h)
          exact absurd hst (by decide)
        · intro h; exact absurd h he
    · intro he
      unfold handleIPv6
      rw [hip]; dsimp only
      rw [if_neg he]
      rfl

/-- C11: a header other than `X-Forwarded-For` is tested verbatim. The value
tested for it is its raw value; when the raw value does not parse as an IP
address the result of `getClientIP` is that of the request without the header;
when it parses and no earlier header is usable the result is the raw value
unchanged. A value with leading white space or a comma-separated list is
therefore skipped. -/
theorem C11_other_headers_verbatim (c : Context) (H : String)
    (hne : H ≠ "X-Forwarded-For") :
    headerValue H (c.GetHeader H) = some (c.GetHeader H)
      ∧ (isValidIP (c.GetHeader H) = false → getClientIP c = getClientIP (c.delHeader H))
      ∧ (∀ pre post : List String, headers = pre ++ H :: post →
          (∀ h ∈ pre, notUsable c h) → isValidIP (c.GetHeader H) = true →
          getClientIP c = some (c.GetHeader H))
      ∧ (c.GetHeader H = " 203.0.113.5" ∨ c.GetHeader H = "203.0.113.5, 10.0.0.1" →
          getClientIP c = getClientIP (c.delHeader H)) := by
  have hv : headerValue H (c.GetHeader H) = some (c.GetHeader H) := headerValue_of_ne hne _
  have hskip : isValidIP (c.GetHeader H) = false →
      getClientIP c = getClientIP (c.delHeader H) :=
    fun hi => getClientIP_delHeader c H (Or.inr ⟨_, hv, hi⟩)
  refine ⟨hv, hskip, ?_, ?_⟩
  · intro pre post hlist hpre hi
    unfold getClientIP
    rw [hlist, loop_first_match c pre H _ post hpre hv hi]
  · intro hval
    apply hskip
    rcases hval with e | e <;> rw [e] <;> decide

/-- Witness of C11: `X-Real-IP` with leading white space and `CF-Connecting-IP`
with a comma-separated list are skipped, so the host of the peer address is
returned; a verbatim valid `X-Client-IP` is returned unchanged. -/
theorem C11_other_headers_verbatim_witness :
    getClientIP (mkContext [("X-Real-IP", " 203.0.113.5")] "192.0.2.10:54321")
        = some "192.0.2.10"
      ∧ getClientIP (mkContext [("CF-Connecting-IP", "203.0.113.5, 10.0.0.1")]
          "192.0.2.10:54321") = some "192.0.2.10"
      ∧ getClientIP (mkContext [("X-Client-IP", "203.0.113.5")] "192.0.2.10:54321")
          = some "203.0.113.5" :=
  ⟨((C11_other_headers_verbatim
      (mkContext [("X-Real-IP", " 203.0.113.5")] "192.0.2.10:54321") "X-Real-IP"
      (by decide)).2.2.2 (Or.inl (by decide))).trans (by decide),
   ((C11_other_headers_verbatim
      (mkContext [("CF-Connecting-IP", "203.0.113.5, 10.0.0.1")] "192.0.2.10:54321")
      "CF-Connecting-IP" (by decide)).2.2.2 (Or.inr (by decide))).trans (by decide),
   (C11_other_headers_verbatim
      (mkContext [("X-Client-IP", "203.0.113.5")] "192.0.2.10:54321") "X-Client-IP"
      (by decide)).2.2.1 ["CF-Connecting-IP", "X-Forwarded-For", "X-Real-IP"]
      ["X-Forwarded", "X-Cluster-Client-IP", "Forwarded-For", "Forwarded"] rfl
      (fun h hh => Or.inl (by
        rcases List.mem_cons.1 hh with e | hh
        · rw [e]; decide
        · rcases List.mem_cons.1 hh with e | hh
          · rw [e]; decide
          · rcases List.mem_cons.1 hh with e | hh
            · rw [e]; decide
            · exact absurd hh (List.not_mem_nil _)))
      (by decide)⟩

/-- C12: `getClientIP`, `getIPv4` and `getIPv6` never fail. For every request
each returns a string, and entry 0 of `strings.Split(ip, ",")` exists for
every `ip`, so the access `ips[0]` is in range; this includes requests
without headers, with empty header values, with an `X-Forwarded-For` made of
commas or white space, and with an empty or malformed peer address. -/
theorem C12_never_fails :
    (∀ c : Context, (∃ ip, getClientIP c = some ip) ∧ (∃ ip, getIPv4 c = some ip)
        ∧ (∃ ip, getIPv6 c = some ip))
      ∧ (∀ ip : String, 0 < (strings.Split ip ",").length
          ∧ ∃ first, (strings.Split ip ",")[0]? = some first)
      ∧ (∀ header ip : String, ∃ v, headerValue header ip = some v)
      ∧ getClientIP (mkContext [] "") = some ""
      ∧ getIPv4 (mkContext [] "") = some ""
      ∧ getIPv6 (mkContext [] "") = some ""
      ∧ getClientIP (mkContext [("X-Forwarded-For", ",,,")] "not-a-valid-address")
          = some "not-a-valid-address"
      ∧ getClientIP (mkContext [("X-Forwarded-For", " \t ")] "[::1") = some "[::1"
      ∧ getIPv4 (mkContext [("X-Forwarded-For", " , ,")] ":") = some ""
      ∧ getIPv6 (mkContext [("X-Forwarded-For", ","), ("X-Real-IP", "")] "a:b:c") = some "" := by
  refine ⟨fun c => ⟨getClientIP_total c, getIPv4_total c, getIPv6_total c⟩, ?_,
    headerValue_total, by decide, by decide, by decide, by decide, by decide, by decide,
    by decide⟩
  intro ip
  obtain ⟨first, hf⟩ := Split_comma_head ip
  refine ⟨?_, first, hf⟩
  cases hs : strings.Split ip "," with
  | nil => rw [hs] at hf; cases hf
  | cons a l => exact Nat.succ_pos _

/-- C13: address-family classification is a partition. For every request, at
most one of `getIPv4` and `getIPv6` is non-empty; when the result of
`getClientIP` parses as an IP address exactly one of them is non-empty and
equals that result; when it does not parse, both are empty. -/
theorem C13_family_partition (c : Context) :
    ∃ ip v4 v6, getClientIP c = some ip ∧ getIPv4 c = some v4 ∧ getIPv6 c = some v6
      ∧ (v4 = "" ∨ v6 = "")
      ∧ (isValidIP ip = true →
          (v4 = ip ∧ v4 ≠ "" ∧ v6 = "") ∨ (v6 = ip ∧ v6 ≠ "" ∧ v4 = ""))
      ∧ (isValidIP ip = false → v4 = "" ∧ v6 = "")
      ∧ (ip = "" → v4 = "" ∧ v6 = "") := by
  obtain ⟨ip, hip⟩ := getClientIP_total c
  refine ⟨ip, _, _, hip, getIPv4_of_getClientIP hip, getIPv6_of_getClientIP hip, ?_⟩
  have hne : isValidIP ip = true → ip ≠ "" := by
    intro hv he
    rw [he, isValidIP_empty] at hv
    exact Bool.noConfusion hv
  unfold isValidIP at hne ⊢
  cases hp : net.ParseIP ip with
  | none =>
    dsimp only
    refine ⟨Or.inl rfl, ?_, fun _ => ⟨rfl, rfl⟩, fun _ => ⟨rfl, rfl⟩⟩
    intro h
    exact Bool.noConfusion h
  | some p =>
    rw [hp] at hne
    have hn : ip ≠ "" := hne rfl
    dsimp only
    cases h4 : net.IP.To4 p with
    | none =>
      refine ⟨Or.inl rfl, fun _ => Or.inr ⟨rfl, hn, rfl⟩, ?_, fun e => absurd e hn⟩
      intro h
      exact Bool.noConfusion h
    | some q =>
      refine ⟨Or.inr rfl, fun _ => Or.inl ⟨rfl, hn, rfl⟩, ?_, fun e => absurd e hn⟩
      intro h
      exact Bool.noConfusion h

/-- C14: when `getClientIP` returns a string that does not parse as an IP
address, no listed header is usable and the string is the peer-address
fallback: the host of the peer address when it splits, the raw peer address
when it does not. Equivalently, a request with a usable header resolves to a
string that parses, for every peer address. -/
theorem C14_invalid_result_is_fallback (c : Context) (v : String)
    (hres : getClientIP c = some v) (hinv : isValidIP v = false) :
    (∀ h ∈ headers, notUsable c h)
      ∧ v = peerFallback c.RemoteAddr
      ∧ ((∃ host port, net.SplitHostPort c.RemoteAddr = .ok (host, port) ∧ v = host)
        ∨ (∃ e, net.SplitHostPort c.RemoteAddr = .error e ∧ v = c.RemoteAddr))
      ∧ ∀ (getHeader : String → String) (H : String), H ∈ headers →
          (getHeader H ≠ "" ∧ ∃ w, headerValue H (getHeader H) = some w ∧ isValidIP w = true) →
          ∀ peer : String, ∃ r, getClientIP ⟨getHeader, peer⟩ = some r ∧ isValidIP r = true := by
  have key : ∀ (d : Context) (r : String), getClientIP d = some r → isValidIP r = false →
      (∀ h ∈ headers, notUsable d h) ∧ r = peerFallback d.RemoteAddr := by
    intro d r hd hr
    unfold getClientIP at hd
    obtain ⟨l, hl⟩ := loop_total d headers
    rw [hl] at hd
    cases l with
    | none =>
      exact ⟨loop_none_imp d headers hl, (Option.some.inj hd).symm⟩
    | some ip =>
      have hval := loop_valid d headers ip hl
      rw [Option.some.inj hd, hr] at hval
      exact Bool.noConfusion hval
  obtain ⟨hall, hfb⟩ := key c v hres hinv
  refine ⟨hall, hfb, ?_, ?_⟩
  · unfold peerFallback at hfb
    cases hs : net.SplitHostPort c.RemoteAddr with
    | error e => rw [hs] at hfb; exact Or.inr ⟨e, rfl, hfb⟩
    | ok hp =>
      obtain ⟨host, port⟩ := hp
      rw [hs] at hfb
      exact Or.inl ⟨host, port, rfl, hfb⟩
  · intro getHeader H hH husable peer
    obtain ⟨r, hr⟩ := getClientIP_total ⟨getHeader, peer⟩
    refine ⟨r, hr, ?_⟩
    cases hb : isValidIP r with
    | true => rfl
    | false =>
      obtain ⟨hnone, _⟩ := key ⟨getHeader, peer⟩ r hr hb
      obtain ⟨hne, w, hw, hwv⟩ := husable
      have := notUsable_of_invalid (hnone H hH) hw
      rw [this] at hwv
      exact Bool.noConfusion hwv

/-- Witness of C14: without headers the peer address `not-a-valid-address` is
returned, which does not parse. -/
theorem C14_invalid_result_is_fallback_witness :
    (∀ h ∈ headers, notUsable (mkContext [] "not-a-valid-address") h)
      ∧ "not-a-valid-address" = peerFallback "not-a-valid-address" :=
  have h := C14_invalid_result_is_fallback (mkContext [] "not-a-valid-address")
    "not-a-valid-address" (by decide) (by decide)
  ⟨h.1, h.2.1⟩

/-- C15: an IPv4-mapped IPv6 address is classified as IPv4 and is not
normalised. When `getClientIP` gives `::ffff:` followed by a valid dotted
quad, `getIPv4` returns that same text, which contains colons and is not a
dotted quad, and `getIPv6` returns the empty string; `::ffff:192.0.2.1` is
such a result. -/
theorem C15_v4_mapped_is_ipv4 (c : Context) (q : String) (fields : List Nat)
    (hq : netip.parseIPv4Fields q.data = some fields)
    (hres : getClientIP c = some ("::ffff:" ++ q)) :
    getIPv4 c = some ("::ffff:" ++ q)
      ∧ getIPv6 c = some ""
      ∧ "::ffff:" ++ q ≠ ""
      ∧ ':' ∈ ("::ffff:" ++ q).data
      ∧ netip.parseIPv4Fields ("::ffff:" ++ q).data = none
      ∧ getIPv4 (mkContext [("CF-Connecting-IP", "::ffff:192.0.2.1")] "192.0.2.10:54321")
          = some "::ffff:192.0.2.1"
      ∧ getIPv6 (mkContext [("CF-Connecting-IP", "::ffff:192.0.2.1")] "192.0.2.10:54321")
          = some "" := by
  have hlen := parseIPv4Fields_loop_length q.data true false 0 0 0 [] fields hq rfl (by decide)
  have hp := ParseIP_v4_mapped q fields hq
  have h4 := To4_v4_mapped fields hlen
  have hdata : ("::ffff:" ++ q).data
      = ':' :: ':' :: 'f' :: 'f' :: 'f' :: 'f' :: ':' :: q.data := by
    rw [String.data_append]; rfl
  refine ⟨?_, ?_, ?_, ?_, ?_, by decide, by decide⟩
  · rw [getIPv4_of_getClientIP hres, hp]
    dsimp only
    rw [h4]
    rfl
  · rw [getIPv6_of_getClientIP hres, hp]
    dsimp only
    rw [h4]
    rfl
  · intro e
    have := congrArg String.data e
    rw [hdata] at this
    cases this
  · rw [hdata]
    exact List.mem_cons_self _ _
  · rw [hdata]
    rfl

/-- Witness of C15: `X-Real-IP: ::ffff:192.0.2.1` resolves to IPv4 with the
colon-containing text unchanged. -/
theorem C15_v4_mapped_is_ipv4_witness :
    getIPv4 (mkContext [("X-Real-IP", "::ffff:192.0.2.1")] "[2001:db8::1]:443")
        = some "::ffff:192.0.2.1"
      ∧ getIPv6 (mkContext [("X-Real-IP", "::ffff:192.0.2.1")] "[2001:db8::1]:443")
        = some "" :=
  have h := C15_v4_mapped_is_ipv4
    (mkContext [("X-Real-IP", "::ffff:192.0.2.1")] "[2001:db8::1]:443") "192.0.2.1"
    [192, 0, 2, 1] (by decide) (by decide)
  ⟨h.1, h.2.1⟩
